import Mathlib

/-!
Verification of the ZVT payment-terminal protocol client
(`src/electron/main/zvt/ZvtClient.ts`) and its test-double server
(`src/_mocks/pos.js`).

Modelling conventions of this shallow embedding:
* A byte is a `Nat`; a byte buffer is a `List Nat`.  All wire bytes produced
  by the source stay below 256, so no wrap-around modelling is required for
  the properties proved here.
* Text handled by the client (`data.toString("utf8")` and the string
  literals of the source) is ASCII throughout the protocol, where UTF-8
  decoding is the identity on byte values; text is therefore represented by
  its byte (= code point) sequence, `List Nat`.
* The promise orchestration of `startPayment` and the socket/timer handling
  of `connect`/`disconnect` are single-threaded, callback-driven programs;
  they are embedded as explicit state machines whose events are the
  callbacks the JavaScript event loop can deliver (data chunks, timer
  expiries, socket lifecycle events).  Node.js delivers the `close` event of
  a destroyed socket asynchronously, after the synchronous code that called
  `destroy()` has returned; this ordering is part of the machine.
-/

namespace Zvt

/-- Byte sequence of an ASCII string literal of the source. -/
def strBytes (s : String) : List Nat :=
  s.toList.map Char.toNat

/-- A wire frame (APDU): class byte, instruction byte, declared payload
length, payload bytes.  Mirrors the record returned by `parseApdu` inside
`ZvtClient.startPayment`. -/
structure Apdu where
  cla : Nat
  ins : Nat
  len : Nat
  data : List Nat
deriving DecidableEq

/-- `buildApdu` helper of `ZvtClient.startPayment` (and `apdu.build` of the
test double): `[cla, ins, data.length] ++ data`. -/
def buildApdu (cla ins : Nat) (data : List Nat) : List Nat :=
  cla :: ins :: data.length :: data

/-- `parseApdu` helper of `ZvtClient.startPayment` (and `apdu.parse` of the
test double): reads one frame from the front of the accumulated buffer,
returning `none` when fewer than 3 header bytes or fewer than `3 + len`
total bytes are available. -/
def parseApdu (buf : List Nat) : Option Apdu :=
  match buf with
  | cla :: ins :: len :: rest =>
    if rest.length < len then none
    else some ⟨cla, ins, len, rest.take len⟩
  | _ => none

/-- A frame whose declared length byte is the exact payload byte count and
whose payload fits the single-byte length field. -/
def Apdu.wf (a : Apdu) : Prop :=
  a.len = a.data.length ∧ a.data.length ≤ 255

instance (a : Apdu) : Decidable a.wf := by
  unfold Apdu.wf; infer_instance

theorem parseApdu_length_le (buf : List Nat) (a : Apdu)
    (h : parseApdu buf = some a) : 3 ≤ buf.length := by
  match buf with
  | [] => simp [parseApdu] at h
  | [_] => simp [parseApdu] at h
  | [_, _] => simp [parseApdu] at h
  | _ :: _ :: _ :: _ => simp

theorem parseApdu_none_short (buf : List Nat) (h : buf.length < 3) :
    parseApdu buf = none := by
  match buf with
  | [] => rfl
  | [_] => rfl
  | [_, _] => rfl
  | _ :: _ :: _ :: _ => simp at h; omega

theorem parseApdu_none_incomplete (cla ins len : Nat) (rest : List Nat)
    (h : rest.length < len) :
    parseApdu (cla :: ins :: len :: rest) = none := by
  simp [parseApdu, h]

theorem parseApdu_shape (buf : List Nat) (a : Apdu)
    (h : parseApdu buf = some a) :
    ∃ rest, buf = a.cla :: a.ins :: a.len :: rest ∧
      a.len ≤ rest.length ∧ a.data = rest.take a.len := by
  match buf with
  | [] => simp [parseApdu] at h
  | [_] => simp [parseApdu] at h
  | [_, _] => simp [parseApdu] at h
  | cla :: ins :: len :: rest =>
    by_cases hlt : rest.length < len
    · simp [parseApdu, hlt] at h
    · simp only [parseApdu, if_neg hlt, Option.some.injEq] at h
      subst h
      exact ⟨rest, rfl, Nat.not_lt.mp hlt, rfl⟩

/-- Accumulating extraction of complete frames from the front of a buffer:
the `while` loop shared by `onData` in `startPayment` and `handleClient` in
the test double, with the per-frame handling abstracted out. -/
def extractFrames (buf : List Nat) : List Apdu × List Nat :=
  match h : parseApdu buf with
  | none => ([], buf)
  | some a =>
    let res := extractFrames (buf.drop (3 + a.len))
    (a :: res.1, res.2)
termination_by buf.length
decreasing_by
  have h3 := parseApdu_length_le buf a h
  simp only [List.length_drop]
  omega

theorem extractFrames_none (buf : List Nat) (h : parseApdu buf = none) :
    extractFrames buf = ([], buf) := by
  rw [extractFrames.eq_def]
  split
  · rfl
  · rename_i a heq; rw [h] at heq; cases heq

theorem extractFrames_some (buf : List Nat) (a : Apdu)
    (h : parseApdu buf = some a) :
    extractFrames buf =
      (a :: (extractFrames (buf.drop (3 + a.len))).1,
       (extractFrames (buf.drop (3 + a.len))).2) := by
  rw [extractFrames.eq_def]
  split
  · rename_i heq; rw [h] at heq; cases heq
  · rename_i b heq
    rw [h] at heq
    cases heq
    rfl

theorem parseApdu_append (buf c : List Nat) (a : Apdu)
    (h : parseApdu buf = some a) :
    parseApdu (buf ++ c) = some a ∧
      (buf ++ c).drop (3 + a.len) = buf.drop (3 + a.len) ++ c := by
  obtain ⟨rest, hb, hlen, hdata⟩ := parseApdu_shape buf a h
  subst hb
  have hnlt : ¬ (rest ++ c).length < a.len := by
    simp only [List.length_append]; omega
  constructor
  · simp only [List.cons_append, parseApdu, if_neg hnlt, Option.some.injEq]
    have : (rest ++ c).take a.len = rest.take a.len := by
      rw [List.take_append_eq_append_take, Nat.sub_eq_zero_of_le hlen]
      simp
    cases a
    simp_all
  · simp only [List.cons_append]
    have h1 : ∀ t : List Nat, (List.drop (3 + a.len) (a.cla :: a.ins :: a.len :: t)) = t.drop a.len := by
      intro t
      have : 3 + a.len = a.len + 3 := by omega
      rw [this]
      rfl
    rw [h1, h1, List.drop_append_eq_append_drop, Nat.sub_eq_zero_of_le hlen]
    simp

theorem extractFrames_snd_none (buf : List Nat) :
    parseApdu (extractFrames buf).2 = none := by
  induction buf using extractFrames.induct with
  | case1 buf h => rw [extractFrames_none buf h]; exact h
  | case2 buf a h ih =>
    rw [extractFrames_some buf a h]
    exact ih

theorem extractFrames_append (buf c : List Nat) :
    extractFrames (buf ++ c) =
      ((extractFrames buf).1 ++ (extractFrames ((extractFrames buf).2 ++ c)).1,
       (extractFrames ((extractFrames buf).2 ++ c)).2) := by
  induction buf using extractFrames.induct with
  | case1 buf h =>
    rw [extractFrames_none buf h]
    simp
  | case2 buf a h ih =>
    obtain ⟨hpa, hdrop⟩ := parseApdu_append buf c a h
    rw [extractFrames_some buf a h, extractFrames_some (buf ++ c) a hpa, hdrop, ih]
    simp

/-- Feeding one transport chunk to the accumulating decoder: append the
chunk to the retained remainder, extract every complete frame. -/
def feed (st : List Apdu × List Nat) (chunk : List Nat) :
    List Apdu × List Nat :=
  ((st.1 ++ (extractFrames (st.2 ++ chunk)).1),
   (extractFrames (st.2 ++ chunk)).2)

/-- Feeding a whole sequence of chunks, starting from an empty buffer. -/
def feedAll (chunks : List (List Nat)) : List Apdu × List Nat :=
  chunks.foldl feed ([], [])

theorem feed_foldl (chunks : List (List Nat)) (fs : List Apdu)
    (b : List Nat) (hb : parseApdu b = none) :
    chunks.foldl feed (fs, b) =
      (fs ++ (extractFrames (b ++ chunks.flatten)).1,
       (extractFrames (b ++ chunks.flatten)).2) := by
  induction chunks generalizing fs b with
  | nil =>
    simp [extractFrames_none b hb]
  | cons c cs ih =>
    simp only [List.foldl_cons, List.flatten_cons]
    rw [feed]
    rw [ih _ _ (extractFrames_snd_none (b ++ c))]
    rw [← List.append_assoc b c cs.flatten, extractFrames_append (b ++ c) cs.flatten]
    simp

/-- Concatenation of the wire encodings of a frame sequence. -/
def encodeFrames (fs : List Apdu) : List Nat :=
  (fs.map (fun a => buildApdu a.cla a.ins a.data)).flatten

theorem extractFrames_encode (fs : List Apdu) (h : ∀ a ∈ fs, a.wf) :
    extractFrames (encodeFrames fs) = (fs, []) := by
  induction fs with
  | nil => exact extractFrames_none [] rfl
  | cons a fs ih =>
    have ha : a.len = a.data.length := (h a (by simp)).1
    have henc : encodeFrames (a :: fs) =
        a.cla :: a.ins :: a.data.length :: (a.data ++ encodeFrames fs) := by
      simp [encodeFrames, buildApdu]
    have hnlt : ¬ (a.data ++ encodeFrames fs).length < a.data.length := by
      simp only [List.length_append]; omega
    have hparse : parseApdu (encodeFrames (a :: fs)) = some a := by
      rw [henc]
      simp only [parseApdu, if_neg hnlt, Option.some.injEq]
      have : (a.data ++ encodeFrames fs).take a.data.length = a.data := by
        rw [List.take_append_eq_append_take, Nat.sub_self]
        simp
      cases a
      simp_all
    have hdrop : (encodeFrames (a :: fs)).drop (3 + a.len) = encodeFrames fs := by
      rw [henc, ha]
      have : 3 + a.data.length = a.data.length + 3 := by omega
      rw [this]
      show (a.data ++ encodeFrames fs).drop a.data.length = encodeFrames fs
      rw [List.drop_append_eq_append_drop, Nat.sub_self]
      simp
    rw [extractFrames_some _ a hparse, hdrop, ih (fun b hb => h b (by simp [hb]))]

/-- C3: for every sequence of well-formed frames concatenated into one byte
stream and every partition of that stream into chunks, feeding the chunks in
order to the accumulating frame decoder yields exactly the same frames, in
the same order, as feeding the whole stream at once; and the decoder parses
only from the front, yielding nothing while fewer than 3 header bytes or
fewer than `3 + len` total bytes are available. -/
theorem c3_chunked_decoding (fs : List Apdu) (chunks : List (List Nat))
    (hwf : ∀ a ∈ fs, a.wf) (hc : chunks.flatten = encodeFrames fs) :
    feedAll chunks = (fs, []) ∧
    feed ([], []) (encodeFrames fs) = (fs, []) ∧
    (∀ buf : List Nat, buf.length < 3 → parseApdu buf = none) ∧
    (∀ cla ins len rest, rest.length < len →
      parseApdu (cla :: ins :: len :: rest) = none) := by
  have hwhole : extractFrames (encodeFrames fs) = (fs, []) :=
    extractFrames_encode fs hwf
  refine ⟨?_, ?_, parseApdu_none_short, parseApdu_none_incomplete⟩
  · rw [feedAll, feed_foldl chunks [] [] rfl]
    simp [hc, hwhole]
  · rw [feed]
    simp [hwhole]

/-- Witness for C3: the two-frame stream `06 0F 02 41 42 04 0F 00` fed one
byte at a time decodes to the same frames as the whole stream. -/
theorem c3_chunked_decoding_witness :
    feedAll [[6], [15], [2], [65], [66], [4], [15], [0]] =
      ([⟨6, 15, 2, [65, 66]⟩, ⟨4, 15, 0, []⟩], []) ∧
    feed ([], []) (encodeFrames [⟨6, 15, 2, [65, 66]⟩, ⟨4, 15, 0, []⟩]) =
      ([⟨6, 15, 2, [65, 66]⟩, ⟨4, 15, 0, []⟩], []) := by
  have h := c3_chunked_decoding [⟨6, 15, 2, [65, 66]⟩, ⟨4, 15, 0, []⟩]
    [[6], [15], [2], [65], [66], [4], [15], [0]] (by decide) (by decide)
  exact ⟨h.1, h.2.1⟩

/-- Digit-peeling loop behind the decimal numeral `String(minor)`:
fuel-indexed to keep the recursion structural; fuel `n` always suffices
because the argument shrinks by a factor of ten each step. -/
def toDigitsRevAux : Nat → Nat → List Nat
  | _, 0 => []
  | 0, _ + 1 => []
  | fuel + 1, n + 1 => (n + 1) % 10 :: toDigitsRevAux fuel ((n + 1) / 10)

/-- Least-significant-first decimal digits of `n` (empty for `0`). -/
def toDigitsRev (n : Nat) : List Nat :=
  toDigitsRevAux n n

theorem toDigitsRevAux_irrel (f1 : Nat) : ∀ f2 n, n ≤ f1 → n ≤ f2 →
    toDigitsRevAux f1 n = toDigitsRevAux f2 n := by
  induction f1 with
  | zero =>
    intro f2 n h1 _
    interval_cases n
    match f2 with
    | 0 => rfl
    | _ + 1 => rfl
  | succ g1 ih =>
    intro f2 n h1 h2
    match n, f2 with
    | 0, 0 => rfl
    | 0, _ + 1 => rfl
    | m + 1, g2 + 1 =>
      show (m + 1) % 10 :: toDigitsRevAux g1 ((m + 1) / 10) =
        (m + 1) % 10 :: toDigitsRevAux g2 ((m + 1) / 10)
      have hq : (m + 1) / 10 ≤ m := Nat.lt_succ_iff.mp (Nat.div_lt_self (Nat.succ_pos m) (by omega))
      rw [ih g2 ((m + 1) / 10) (by omega) (by omega)]

theorem toDigitsRev_succ (n : Nat) (h : n ≠ 0) :
    toDigitsRev n = n % 10 :: toDigitsRev (n / 10) := by
  match n with
  | m + 1 =>
    show toDigitsRevAux (m + 1) (m + 1) = _
    have hq : (m + 1) / 10 ≤ m := Nat.lt_succ_iff.mp (Nat.div_lt_self (Nat.succ_pos m) (by omega))
    show (m + 1) % 10 :: toDigitsRevAux m ((m + 1) / 10) = _
    rw [toDigitsRevAux_irrel m ((m + 1) / 10) ((m + 1) / 10) hq (Nat.le_refl _)]
    rfl

theorem toDigitsRev_digit_lt (n : Nat) : ∀ d ∈ toDigitsRev n, d < 10 := by
  induction n using Nat.strong_induction_on with
  | _ n ih =>
    intro d hd
    by_cases h0 : n = 0
    · subst h0; simp [toDigitsRev, toDigitsRevAux] at hd
    · rw [toDigitsRev_succ n h0] at hd
      rcases List.mem_cons.mp hd with h | h
      · subst h; exact Nat.mod_lt n (by omega)
      · exact ih (n / 10) (Nat.div_lt_self (Nat.pos_of_ne_zero h0) (by omega)) d h

theorem toDigitsRev_length_le (k : Nat) : ∀ n, n < 10 ^ k →
    (toDigitsRev n).length ≤ k := by
  induction k with
  | zero =>
    intro n h
    interval_cases n
    simp [toDigitsRev, toDigitsRevAux]
  | succ k ih =>
    intro n h
    by_cases h0 : n = 0
    · subst h0; simp [toDigitsRev, toDigitsRevAux]
    · rw [toDigitsRev_succ n h0]
      have : n / 10 < 10 ^ k := by
        rw [Nat.div_lt_iff_lt_mul (by omega)]
        calc n < 10 ^ (k + 1) := h
        _ = 10 ^ k * 10 := by ring
      simpa using ih (n / 10) this

theorem toDigitsRev_length_ge (k : Nat) : ∀ n, 10 ^ k ≤ n →
    k + 1 ≤ (toDigitsRev n).length := by
  induction k with
  | zero =>
    intro n h
    have h0 : n ≠ 0 := by omega
    rw [toDigitsRev_succ n h0]
    simp
  | succ k ih =>
    intro n h
    have h0 : n ≠ 0 := by
      have : 0 < 10 ^ (k + 1) := Nat.pos_pow_of_pos _ (by omega)
      omega
    rw [toDigitsRev_succ n h0]
    have hdiv : 10 ^ k ≤ n / 10 := by
      rw [Nat.le_div_iff_mul_le (by omega)]
      calc 10 ^ k * 10 = 10 ^ (k + 1) := by ring
      _ ≤ n := h
    simpa using ih (n / 10) hdiv

theorem toDigitsRev_drop (k : Nat) : ∀ n, (toDigitsRev n).drop k =
    toDigitsRev (n / 10 ^ k) := by
  induction k with
  | zero => intro n; simp
  | succ k ih =>
    intro n
    by_cases h0 : n = 0
    · subst h0; simp [toDigitsRev, toDigitsRevAux, Nat.zero_div]
    · rw [toDigitsRev_succ n h0]
      have : (n % 10 :: toDigitsRev (n / 10)).drop (k + 1) =
          (toDigitsRev (n / 10)).drop k := rfl
      rw [this, ih (n / 10), Nat.div_div_eq_div_mul]
      congr 1
      ring_nf

/-- `parseInt(digits, 10)` on a most-significant-first digit list. -/
def digitsToNat (ds : List Nat) : Nat :=
  ds.foldl (fun acc d => acc * 10 + d) 0

theorem digitsToNat_toDigitsRev_reverse (n : Nat) :
    digitsToNat (toDigitsRev n).reverse = n := by
  rw [digitsToNat, List.foldl_reverse]
  induction n using Nat.strong_induction_on with
  | _ n ih =>
    by_cases h0 : n = 0
    · subst h0; simp [toDigitsRev, toDigitsRevAux]
    · rw [toDigitsRev_succ n h0]
      rw [List.foldr_cons]
      rw [ih (n / 10) (Nat.div_lt_self (Nat.pos_of_ne_zero h0) (by omega))]
      omega

/-- The decimal numeral `String(minor)` of JavaScript, as its digit list,
most significant digit first. -/
def decDigits (n : Nat) : List Nat :=
  if n = 0 then [0] else (toDigitsRev n).reverse

/-- `s.padStart(8, "0")` on a digit list. -/
def padStart8 (l : List Nat) : List Nat :=
  List.replicate (8 - l.length) 0 ++ l

/-- The eight characters `s[0] … s[7]` read by the packing loop of
`amountToBcd` after `String(minor).padStart(8, "0")`. -/
def amountDigits (minor : Nat) : List Nat :=
  (padStart8 (decDigits minor)).take 8

/-- The packing loop of `amountToBcd`: each adjacent digit pair becomes one
byte, `(hi << 4) | lo`. -/
def packBcd : List Nat → List Nat
  | hi :: lo :: rest => ((hi <<< 4) ||| lo) :: packBcd rest
  | _ => []

/-- The four BCD payload bytes produced by `amountToBcd`. -/
def amountBcdBytes (minor : Nat) : List Nat :=
  packBcd (amountDigits minor)

/-- `amountToBcd` of `ZvtClient.startPayment`: BCD payload wrapped under
field tag `0x04` with an explicit 1-byte length. -/
def amountToBcd (minor : Nat) : List Nat :=
  0x04 :: (amountBcdBytes minor).length :: amountBcdBytes minor

/-- Digit extraction of `bcdToAmount` in the test double: per byte, the
nibbles `(byte >> 4) & 0x0f` and `byte & 0x0f`, in order. -/
def bcdToDigits (b : List Nat) : List Nat :=
  (b.map (fun byte => [(byte >>> 4) &&& 0x0f, byte &&& 0x0f])).flatten

/-- The integer `v = parseInt(digits, 10)` recovered by `bcdToAmount` in the
test double before euro formatting. -/
def bcdToAmountCents (b : List Nat) : Nat :=
  digitsToNat (bcdToDigits b)

theorem shiftLeft_or_eq (hi lo : Nat) (h : lo < 16) :
    (hi <<< 4) ||| lo = 16 * hi + lo := by
  have h1 : hi <<< 4 = hi * 2 ^ 4 := Nat.shiftLeft_eq hi 4
  have h2 : hi * 2 ^ 4 ||| lo = hi * 2 ^ 4 + lo := by
    rw [Nat.mul_comm]
    exact (Nat.mul_add_lt_is_or h hi).symm
  rw [h1, h2]; omega

theorem bcd_byte_hi (hi lo : Nat) (hh : hi < 16) (hl : lo < 16) :
    (((hi <<< 4) ||| lo) >>> 4) &&& 0x0f = hi := by
  rw [shiftLeft_or_eq hi lo hl, Nat.shiftRight_eq_div_pow]
  have h15 : ∀ m : Nat, m &&& 0x0f = m % 16 := fun m => Nat.and_pow_two_sub_one_eq_mod m 4
  rw [h15]
  have : (16 * hi + lo) / 2 ^ 4 = hi := by omega
  rw [this, Nat.mod_eq_of_lt hh]

theorem bcd_byte_lo (hi lo : Nat) (hl : lo < 16) :
    ((hi <<< 4) ||| lo) &&& 0x0f = lo := by
  rw [shiftLeft_or_eq hi lo hl]
  have h15 : ∀ m : Nat, m &&& 0x0f = m % 16 := fun m => Nat.and_pow_two_sub_one_eq_mod m 4
  rw [h15]
  omega

theorem bcdToDigits_packBcd (ds : List Nat) (h : ∀ d ∈ ds, d < 16)
    (he : ds.length % 2 = 0) : bcdToDigits (packBcd ds) = ds := by
  induction ds using packBcd.induct with
  | case1 hi lo rest ih =>
    have hhi : hi < 16 := h hi (by simp)
    have hlo : lo < 16 := h lo (by simp)
    show ((((hi <<< 4) ||| lo) >>> 4) &&& 0x0f) ::
        (((hi <<< 4) ||| lo) &&& 0x0f) :: bcdToDigits (packBcd rest) =
        hi :: lo :: rest
    rw [bcd_byte_hi hi lo hhi hlo, bcd_byte_lo hi lo hlo,
      ih (fun d hd => h d (by simp [hd])) (by simp at he; omega)]
  | case2 l h1 =>
    match l, h1 with
    | [], _ => rfl
    | [d], h1 => simp at he
    | hi :: lo :: rest, h1 => exact absurd rfl (h1 hi lo rest)

theorem digitsToNat_cons_zero (l : List Nat) :
    digitsToNat (0 :: l) = digitsToNat l := by
  simp [digitsToNat]

theorem digitsToNat_replicate_zero (k : Nat) (l : List Nat) :
    digitsToNat (List.replicate k 0 ++ l) = digitsToNat l := by
  induction k with
  | zero => rfl
  | succ k ih => simpa [List.replicate_succ, digitsToNat_cons_zero] using ih

theorem decDigits_length_le (a : Nat) (h : a ≤ 99999999) :
    (decDigits a).length ≤ 8 := by
  by_cases h0 : a = 0
  · subst h0; simp [decDigits]
  · rw [decDigits, if_neg h0, List.length_reverse]
    exact toDigitsRev_length_le 8 a (by omega)

theorem padStart8_length (l : List Nat) (h : l.length ≤ 8) :
    (padStart8 l).length = 8 := by
  simp [padStart8]
  omega

theorem amountDigits_length (a : Nat) : (amountDigits a).length = 8 := by
  rw [amountDigits, List.length_take]
  simp [padStart8]
  omega

theorem amountDigits_all_lt (a : Nat) : ∀ d ∈ amountDigits a, d < 16 := by
  intro d hd
  have hd1 : d ∈ padStart8 (decDigits a) := List.mem_of_mem_take hd
  rcases List.mem_append.mp hd1 with h | h
  · have := List.eq_of_mem_replicate h
    omega
  · by_cases h0 : a = 0
    · subst h0; simp [decDigits] at h; omega
    · rw [decDigits, if_neg h0, List.mem_reverse] at h
      have := toDigitsRev_digit_lt a d h
      omega

theorem packBcd_length (ds : List Nat) : (packBcd ds).length = ds.length / 2 := by
  induction ds using packBcd.induct with
  | case1 hi lo rest ih =>
    show (packBcd rest).length + 1 = (rest.length + 2) / 2
    rw [ih]
    omega
  | case2 l h1 =>
    match l, h1 with
    | [], _ => rfl
    | [d], _ => simp [packBcd]
    | hi :: lo :: rest, h1 => exact absurd rfl (h1 hi lo rest)

theorem bcd_value_digits (a : Nat) :
    bcdToAmountCents (amountBcdBytes a) = digitsToNat (amountDigits a) := by
  rw [amountBcdBytes, bcdToAmountCents,
    bcdToDigits_packBcd _ (amountDigits_all_lt a) (by rw [amountDigits_length])]

/-- C4: for every `0 ≤ a ≤ 99999999`, the amount field is the 4 BCD payload
bytes wrapped under tag `0x04` with 1-byte length 4, and decoding the BCD
payload back to an integer (as the test double does) yields `a` exactly. -/
theorem c4_bcd_roundtrip (a : Nat) (h : a ≤ 99999999) :
    amountToBcd a = 0x04 :: 0x04 :: amountBcdBytes a ∧
    (amountBcdBytes a).length = 4 ∧
    bcdToAmountCents (amountBcdBytes a) = a := by
  have hlen4 : (amountBcdBytes a).length = 4 := by
    rw [amountBcdBytes, packBcd_length, amountDigits_length]
  refine ⟨by rw [amountToBcd, hlen4], hlen4, ?_⟩
  rw [bcd_value_digits]
  have h8 : (decDigits a).length ≤ 8 := decDigits_length_le a h
  have hpl := padStart8_length (decDigits a) h8
  rw [amountDigits, ← hpl, List.take_length, padStart8, digitsToNat_replicate_zero]
  by_cases h0 : a = 0
  · subst h0; rfl
  · rw [decDigits, if_neg h0]
    exact digitsToNat_toDigitsRev_reverse a

/-- Witness for C4 at `a = 1299` (€12.99): the payload is `00 00 12 99` and
decodes back to 1299. -/
theorem c4_bcd_roundtrip_witness :
    bcdToAmountCents (amountBcdBytes 1299) = 1299 ∧
    amountBcdBytes 1299 = [0x00, 0x00, 0x12, 0x99] :=
  ⟨(c4_bcd_roundtrip 1299 (by decide)).2.2, by decide⟩

theorem reverse_take_eq_drop_reverse (l : List Nat) (n : Nat) :
    l.reverse.take n = (l.drop (l.length - n)).reverse := by
  have h1 : (l.reverse.take n).reverse = l.drop (l.length - n) := by
    rw [List.reverse_take]
    simp
  rw [← h1, List.reverse_reverse]

/-- C10: for every amount of more than 8 decimal digits, `amountToBcd`
silently encodes only the first 8 characters of the decimal numeral — the
value decoded back from the payload is `a` with its trailing digits dropped,
strictly smaller than `a` — while still producing a well-formed `0x04`-tagged
4-byte field; the encoding is lossy and not injective beyond 8 digits. -/
theorem c10_amount_truncation (a : Nat) (h : 100000000 ≤ a) :
    bcdToAmountCents (amountBcdBytes a) = a / 10 ^ ((decDigits a).length - 8) ∧
    bcdToAmountCents (amountBcdBytes a) < a ∧
    amountToBcd a = 0x04 :: 0x04 :: amountBcdBytes a ∧
    (amountBcdBytes a).length = 4 ∧
    amountToBcd 100000000 = amountToBcd 100000001 ∧
    (100000000 : Nat) ≠ 100000001 := by
  have h0 : a ≠ 0 := by omega
  have hL : 9 ≤ (toDigitsRev a).length := by
    have h10 : 10 ^ 8 ≤ a := by norm_num; omega
    simpa using toDigitsRev_length_ge 8 a h10
  have hdd : decDigits a = (toDigitsRev a).reverse := by
    rw [decDigits, if_neg h0]
  have hddlen : (decDigits a).length = (toDigitsRev a).length := by
    rw [hdd, List.length_reverse]
  have hpad : padStart8 (decDigits a) = decDigits a := by
    rw [padStart8, Nat.sub_eq_zero_of_le (by omega)]
    rfl
  have hdrop := toDigitsRev_drop ((toDigitsRev a).length - 8) a
  have htake : amountDigits a =
      (toDigitsRev (a / 10 ^ ((toDigitsRev a).length - 8))).reverse := by
    rw [amountDigits, hpad, hdd, reverse_take_eq_drop_reverse, ← hdrop]
  have hq0 : a / 10 ^ ((toDigitsRev a).length - 8) ≠ 0 := by
    intro hz
    have hlen := congrArg List.length htake
    rw [hz] at hlen
    rw [amountDigits_length] at hlen
    simp [toDigitsRev, toDigitsRevAux] at hlen
  have hval : digitsToNat (amountDigits a) =
      a / 10 ^ ((toDigitsRev a).length - 8) := by
    rw [htake]
    exact digitsToNat_toDigitsRev_reverse _
  have hlen4 : (amountBcdBytes a).length = 4 := by
    rw [amountBcdBytes, packBcd_length, amountDigits_length]
  refine ⟨?_, ?_, by rw [amountToBcd, hlen4], hlen4, by decide, by decide⟩
  · rw [bcd_value_digits, hval, hddlen]
  · rw [bcd_value_digits, hval]
    exact Nat.div_lt_self (by omega) (Nat.one_lt_pow (by omega) (by omega))

/-- Witness for C10 at `a = 123456789`: the decoded payload value is
12345678, the last digit silently dropped. -/
theorem c10_amount_truncation_witness :
    bcdToAmountCents (amountBcdBytes 123456789) = 12345678 ∧
    bcdToAmountCents (amountBcdBytes 123456789) < 123456789 := by
  have h := c10_amount_truncation 123456789 (by decide)
  refine ⟨?_, h.2.1⟩
  rw [h.1]
  decide

/-- ASCII upper-casing of one text byte: the case folding performed by the
`i` flag on the source's regular expressions over the protocol's ASCII
text. -/
def upperByte (b : Nat) : Nat :=
  if 97 ≤ b ∧ b ≤ 122 then b - 32 else b

/-- Does pattern `p` occur at the head of `s`? -/
def startsWithB : List Nat → List Nat → Bool
  | [], _ => true
  | _ :: _, [] => false
  | p :: ps, c :: cs => p == c && startsWithB ps cs

/-- Does pattern `p` occur anywhere in `s` (left-to-right scan)? -/
def hasSub (p : List Nat) : List Nat → Bool
  | [] => startsWithB p []
  | c :: cs => startsWithB p (c :: cs) || hasSub p cs

/-- `/APPROV|OK|SUCCESS/i.test(txt)` from the Completion branch of
`onData`. -/
def approvedTest (txt : List Nat) : Bool :=
  hasSub (strBytes "APPROV") (txt.map upperByte) ||
  hasSub (strBytes "OK") (txt.map upperByte) ||
  hasSub (strBytes "SUCCESS") (txt.map upperByte)

/-- Character class `[0-9A-Za-z-]` of the RRN/AUTH capture groups. -/
def isTokenChar (b : Nat) : Bool :=
  (48 ≤ b && b ≤ 57) || (65 ≤ b && b ≤ 90) || (97 ≤ b && b ≤ 122) || b == 45

/-- One attempted match of `KEY[:=]([0-9A-Za-z-]+)` (key upper-case,
compared case-insensitively) at the very start of `s`; on success returns
the greedy, non-empty capture. -/
def matchKeyAt (key s : List Nat) : Option (List Nat) :=
  if startsWithB key (s.map upperByte) then
    match s.drop key.length with
    | sep :: tail =>
      if sep == 58 || sep == 61 then
        let run := tail.takeWhile isTokenChar
        if run.isEmpty then none else some run
      else none
    | [] => none
  else none

/-- `/KEY[:=]([0-9A-Za-z-]+)/i.exec(txt)?.[1]`: the capture of the leftmost
match, scanning start positions left to right. -/
def extractToken (key : List Nat) : List Nat → Option (List Nat)
  | [] => none
  | c :: rest =>
    match matchKeyAt key (c :: rest) with
    | some run => some run
    | none => extractToken key rest

/-- The value delivered to `resolve` by `startPayment`: success flag,
message text, optional retrieval reference number, optional authorization
code. -/
structure PaymentOutcome where
  success : Bool
  message : List Nat
  rrn : Option (List Nat)
  authCode : Option (List Nat)
deriving DecidableEq

/-- The Completion branch (`06 0F`) of `onData`: approval by keyword test,
RRN/AUTH token capture, message = the full payload text. -/
def completionOutcome (txt : List Nat) : PaymentOutcome :=
  { success := approvedTest txt
    message := txt
    rrn := extractToken (strBytes "RRN") txt
    authCode := extractToken (strBytes "AUTH") txt }

/-- Case-insensitive containment of `pat` in `txt` (spec-side predicate,
stated independently of the scanning code). -/
def ContainsCI (txt pat : List Nat) : Prop :=
  ∃ l r, txt.map upperByte = l ++ pat ++ r

theorem startsWithB_iff (p s : List Nat) :
    startsWithB p s = true ↔ ∃ r, s = p ++ r := by
  induction p generalizing s with
  | nil => simp [startsWithB]
  | cons x xs ih =>
    cases s with
    | nil =>
      simp [startsWithB]
    | cons c cs =>
      rw [startsWithB]
      simp only [Bool.and_eq_true, beq_iff_eq, ih]
      constructor
      · rintro ⟨hx, r, hr⟩
        exact ⟨r, by simp [hx, hr]⟩
      · rintro ⟨r, hr⟩
        simp only [List.cons_append, List.cons.injEq] at hr
        exact ⟨hr.1.symm, r, hr.2⟩

theorem hasSub_iff (p s : List Nat) :
    hasSub p s = true ↔ ∃ l r, s = l ++ p ++ r := by
  induction s with
  | nil =>
    rw [hasSub, startsWithB_iff]
    constructor
    · rintro ⟨r, hr⟩
      exact ⟨[], r, by simp [hr]⟩
    · rintro ⟨l, r, hr⟩
      have hl : l = [] := by
        cases l with
        | nil => rfl
        | cons x xs => simp at hr
      subst hl
      exact ⟨r, by simpa using hr⟩
  | cons c cs ih =>
    rw [hasSub]
    simp only [Bool.or_eq_true, startsWithB_iff, ih]
    constructor
    · rintro (⟨r, hr⟩ | ⟨l, r, hr⟩)
      · exact ⟨[], r, by simp [hr]⟩
      · exact ⟨c :: l, r, by simp [hr]⟩
    · rintro ⟨l, r, hr⟩
      cases l with
      | nil => exact Or.inl ⟨r, by simpa using hr⟩
      | cons x xs =>
        simp only [List.cons_append, List.cons.injEq] at hr
        exact Or.inr ⟨xs, r, by simp [hr.2]⟩

/-- The literal ACK frame `80 00 00`. -/
def ackFrame : List Nat := [0x80, 0x00, 0x00]

/-- `encodeTlv` of `ZvtClient.startPayment`: consecutive `[tag][len][value]`
triples wrapped under container tag `0x06`. -/
def encodeTlv (items : List (Nat × List Nat)) : List Nat :=
  let body := (items.map (fun it => it.1 :: it.2.length :: it.2)).flatten
  0x06 :: body.length :: body

/-- The Authorization payload built by `startPayment`: amount field plus the
(initially empty) TLV container. -/
def authPayload (amountCents : Nat) : List Nat :=
  amountToBcd amountCents ++ encodeTlv []

/-- `opts?.operationTimeoutMs ?? 90_000`. -/
def defaultOperationTimeoutMs : Nat := 90000

/-- Closure state of one `startPayment` invocation: the `finished` flag and
`buffer` of the promise body, whether `onData` is still attached, whether
the operation-timeout timer is still pending, plus the observable histories
(resolved outcomes, frames written to the socket, status/receipt callback
invocations). -/
structure SessionState where
  finished : Bool
  listenerOn : Bool
  timerOn : Bool
  buffer : List Nat
  resolved : List PaymentOutcome
  sent : List (List Nat)
  statusTexts : List (List Nat)
  receiptTexts : List (List Nat)
deriving DecidableEq

/-- The timeout outcome `{success: false, message: "Timeout waiting for
completion"}`. -/
def timeoutOutcome : PaymentOutcome :=
  ⟨false, strBytes "Timeout waiting for completion", none, none⟩

/-- The local `finish` of `startPayment`: if not yet finished, mark
finished, detach the byte-listener, clear the operation-timeout timer and
resolve with `res`; otherwise do nothing. -/
def finish (st : SessionState) (res : PaymentOutcome) : SessionState :=
  if st.finished then st
  else
    { st with
      finished := true
      listenerOn := false
      timerOn := false
      resolved := st.resolved ++ [res] }

/-- Whether `onData` continues its loop after a frame or returns
(Completion settles the operation and stops processing). -/
inductive StepRes
  | cont
  | stop
deriving DecidableEq

/-- Per-frame dispatch of `onData`: Status Information (`04 0F`), receipt
line/text block (`06 D1`/`06 D3`), Completion (`06 0F`), or the polite
default — every branch writes exactly one ACK. -/
def handleApdu (st : SessionState) (a : Apdu) : SessionState × StepRes :=
  if a.cla == 0x04 && a.ins == 0x0f then
    let text := if a.data.isEmpty then strBytes "STATUS" else a.data
    ({ st with
       statusTexts := st.statusTexts ++ [text]
       sent := st.sent ++ [ackFrame] }, StepRes.cont)
  else if a.cla == 0x06 && (a.ins == 0xd1 || a.ins == 0xd3) then
    ({ st with
       receiptTexts := st.receiptTexts ++ [a.data]
       sent := st.sent ++ [ackFrame] }, StepRes.cont)
  else if a.cla == 0x06 && a.ins == 0x0f then
    (finish { st with sent := st.sent ++ [ackFrame] }
      (completionOutcome a.data), StepRes.stop)
  else
    ({ st with sent := st.sent ++ [ackFrame] }, StepRes.cont)

/-- The `while` loop of `onData`, fuel-indexed to keep the recursion
structural; fuel `buf.length` always suffices because every parsed frame
consumes at least 3 buffer bytes. -/
def onDataLoop : Nat → List Nat → SessionState → SessionState
  | 0, buf, st => { st with buffer := buf }
  | fuel + 1, buf, st =>
    match parseApdu buf with
    | none => { st with buffer := buf }
    | some a =>
      match handleApdu st a with
      | (st2, StepRes.cont) => onDataLoop fuel (buf.drop (3 + a.len)) st2
      | (st2, StepRes.stop) => { st2 with buffer := buf.drop (3 + a.len) }

/-- The `onData` listener: append the chunk to the invocation's buffer and
process every complete frame from the front. -/
def onData (st : SessionState) (chunk : List Nat) : SessionState :=
  onDataLoop (st.buffer ++ chunk).length (st.buffer ++ chunk) st

/-- Events the JavaScript event loop can deliver to one `startPayment`
invocation: a socket data chunk, or expiry of the operation-timeout
timer. -/
inductive SEvent
  | data (chunk : List Nat)
  | timerFire
deriving DecidableEq

/-- One event-loop delivery: `onData` runs only while attached; a timer
only fires while pending. -/
def step (st : SessionState) (e : SEvent) : SessionState :=
  match e with
  | SEvent.data chunk => if st.listenerOn then onData st chunk else st
  | SEvent.timerFire => if st.timerOn then finish st timeoutOutcome else st

/-- State right after the synchronous body of `startPayment`: listener
attached, operation-timeout armed, Authorization frame (`06 01`) written. -/
def initSession (amountCents : Nat) : SessionState :=
  { finished := false
    listenerOn := true
    timerOn := true
    buffer := []
    resolved := []
    sent := [buildApdu 0x06 0x01 (authPayload amountCents)]
    statusTexts := []
    receiptTexts := [] }

/-- One `startPayment` invocation under an arbitrary event sequence. -/
def runSession (amountCents : Nat) (tr : List SEvent) : SessionState :=
  tr.foldl step (initSession amountCents)

/-- The invocation has not settled: flag clear, listener attached, timer
pending, nothing resolved. -/
def Pending (st : SessionState) : Prop :=
  st.finished = false ∧ st.listenerOn = true ∧ st.timerOn = true ∧
    st.resolved = []

/-- The invocation has settled exactly once: flag set, listener detached,
timer cleared, exactly one resolved outcome. -/
def Settled (st : SessionState) : Prop :=
  st.finished = true ∧ st.listenerOn = false ∧ st.timerOn = false ∧
    st.resolved.length = 1

/-- Every reachable session state is either pending or settled-once. -/
def GoodSession (st : SessionState) : Prop :=
  Pending st ∨ Settled st

theorem finish_pending (st : SessionState) (res : PaymentOutcome)
    (h : Pending st) :
    Settled (finish st res) ∧ (finish st res).resolved = [res] := by
  obtain ⟨h1, h2, h3, h4⟩ := h
  rw [finish, if_neg (by simp [h1])]
  exact ⟨⟨rfl, rfl, rfl, by simp [h4]⟩, by simp [h4]⟩

theorem handleApdu_cont (st : SessionState) (a : Apdu) (st2 : SessionState)
    (h : handleApdu st a = (st2, StepRes.cont)) :
    st2.finished = st.finished ∧ st2.listenerOn = st.listenerOn ∧
    st2.timerOn = st.timerOn ∧ st2.resolved = st.resolved := by
  rw [handleApdu] at h
  split_ifs at h <;>
    (injection h with h1 h2) <;>
    first
      | (subst h1; exact ⟨rfl, rfl, rfl, rfl⟩)
      | (cases h2)

theorem handleApdu_stop (st : SessionState) (a : Apdu) (st2 : SessionState)
    (h : handleApdu st a = (st2, StepRes.stop)) :
    st2 = finish { st with sent := st.sent ++ [ackFrame] }
      (completionOutcome a.data) := by
  rw [handleApdu] at h
  split_ifs at h <;>
    (injection h with h1 h2) <;>
    first
      | (exact h1.symm)
      | (cases h2)

theorem onDataLoop_succ_none (fuel : Nat) (buf : List Nat)
    (st : SessionState) (h : parseApdu buf = none) :
    onDataLoop (fuel + 1) buf st = { st with buffer := buf } := by
  rw [onDataLoop, h]

theorem onDataLoop_succ_cont (fuel : Nat) (buf : List Nat)
    (st : SessionState) (a : Apdu) (st2 : SessionState)
    (hp : parseApdu buf = some a)
    (hh : handleApdu st a = (st2, StepRes.cont)) :
    onDataLoop (fuel + 1) buf st =
      onDataLoop fuel (buf.drop (3 + a.len)) st2 := by
  rw [onDataLoop, hp]
  change (match handleApdu st a with
    | (s2, StepRes.cont) => onDataLoop fuel (buf.drop (3 + a.len)) s2
    | (s2, StepRes.stop) => { s2 with buffer := buf.drop (3 + a.len) }) = _
  rw [hh]

theorem onDataLoop_succ_stop (fuel : Nat) (buf : List Nat)
    (st : SessionState) (a : Apdu) (st2 : SessionState)
    (hp : parseApdu buf = some a)
    (hh : handleApdu st a = (st2, StepRes.stop)) :
    onDataLoop (fuel + 1) buf st = { st2 with buffer := buf.drop (3 + a.len) } := by
  rw [onDataLoop, hp]
  change (match handleApdu st a with
    | (s2, StepRes.cont) => onDataLoop fuel (buf.drop (3 + a.len)) s2
    | (s2, StepRes.stop) => { s2 with buffer := buf.drop (3 + a.len) }) = _
  rw [hh]

theorem onDataLoop_good (fuel : Nat) : ∀ buf st, Pending st →
    GoodSession (onDataLoop fuel buf st) := by
  induction fuel with
  | zero => intro buf st h; exact Or.inl h
  | succ fuel ih =>
    intro buf st h
    cases hp : parseApdu buf with
    | none =>
      rw [onDataLoop_succ_none fuel buf st hp]
      exact Or.inl h
    | some a =>
      rcases hh : handleApdu st a with ⟨st2, r⟩
      cases r with
      | cont =>
        rw [onDataLoop_succ_cont fuel buf st a st2 hp hh]
        obtain ⟨e1, e2, e3, e4⟩ := handleApdu_cont st a st2 hh
        exact ih _ st2 ⟨e1.trans h.1, e2.trans h.2.1, e3.trans h.2.2.1,
          e4.trans h.2.2.2⟩
      | stop =>
        rw [onDataLoop_succ_stop fuel buf st a st2 hp hh,
          handleApdu_stop st a st2 hh]
        exact Or.inr (finish_pending _ _
          (⟨h.1, h.2.1, h.2.2.1, h.2.2.2⟩ :
            Pending { st with sent := st.sent ++ [ackFrame] })).1

theorem step_good (st : SessionState) (e : SEvent) (h : GoodSession st) :
    GoodSession (step st e) := by
  cases e with
  | data chunk =>
    show GoodSession (if st.listenerOn then onData st chunk else st)
    cases h with
    | inl hp =>
      rw [if_pos hp.2.1, onData]
      exact onDataLoop_good _ _ _ hp
    | inr hs =>
      rw [if_neg (by simp [hs.2.1])]
      exact Or.inr hs
  | timerFire =>
    show GoodSession (if st.timerOn then finish st timeoutOutcome else st)
    cases h with
    | inl hp =>
      rw [if_pos hp.2.2.1]
      exact Or.inr (finish_pending st _ hp).1
    | inr hs =>
      rw [if_neg (by simp [hs.2.2.1])]
      exact Or.inr hs

theorem settled_step (st : SessionState) (e : SEvent) (h : Settled st) :
    step st e = st := by
  cases e with
  | data chunk =>
    show (if st.listenerOn then onData st chunk else st) = st
    rw [if_neg (by simp [h.2.1])]
  | timerFire =>
    show (if st.timerOn then finish st timeoutOutcome else st) = st
    rw [if_neg (by simp [h.2.2.1])]

theorem settled_run (tr : List SEvent) (st : SessionState) (h : Settled st) :
    tr.foldl step st = st := by
  induction tr with
  | nil => rfl
  | cons e es ih => rw [List.foldl_cons, settled_step st e h, ih]

theorem foldl_good (tr : List SEvent) : ∀ st, GoodSession st →
    GoodSession (tr.foldl step st) := by
  induction tr with
  | nil => intro st h; exact h
  | cons e es ih =>
    intro st h
    rw [List.foldl_cons]
    exact ih _ (step_good st e h)

theorem run_good (amountCents : Nat) (tr : List SEvent) :
    GoodSession (runSession amountCents tr) :=
  foldl_good tr _ (Or.inl ⟨rfl, rfl, rfl, rfl⟩)

theorem timer_settles (st : SessionState) (h : GoodSession st) :
    Settled (step st SEvent.timerFire) := by
  cases h with
  | inl hp =>
    show Settled (if st.timerOn then finish st timeoutOutcome else st)
    rw [if_pos hp.2.2.1]
    exact (finish_pending st _ hp).1
  | inr hs =>
    rw [settled_step st _ hs]
    exact hs

/-- C1: over every event sequence the deferred result of one `startPayment`
invocation resolves at most once, and once the operation-timeout timer has
fired it has resolved exactly once — no later frame, timer expiry or
duplicate Completion can settle it a second time. -/
theorem c1_settles_exactly_once (amountCents : Nat) (tr : List SEvent) :
    (runSession amountCents tr).resolved.length ≤ 1 ∧
    (SEvent.timerFire ∈ tr →
      (runSession amountCents tr).resolved.length = 1) := by
  constructor
  · cases run_good amountCents tr with
    | inl hp => simp [hp.2.2.2]
    | inr hs => exact Nat.le_of_eq hs.2.2.2
  · intro hmem
    obtain ⟨s, t, hst⟩ := List.append_of_mem hmem
    subst hst
    rw [runSession, List.foldl_append, List.foldl_cons]
    have hg : GoodSession (s.foldl step (initSession amountCents)) :=
      run_good amountCents s
    have hs := timer_settles _ hg
    rw [settled_run t _ hs]
    exact hs.2.2.2

/-- Witness for C1: a trace consisting of one timer expiry resolves exactly
one outcome. -/
theorem c1_settles_exactly_once_witness :
    SEvent.timerFire ∈ [SEvent.timerFire] ∧
    (runSession 1299 [SEvent.timerFire]).resolved.length = 1 :=
  ⟨by decide,
    (c1_settles_exactly_once 1299 [SEvent.timerFire]).2 (by decide)⟩

/-- C6: if the invocation has not settled when the operation-timeout timer
fires, it resolves (never rejects — the resolved-value channel is the only
settlement channel of the machine) with the failure outcome carrying the
timeout message; afterwards the timer is no longer pending, the
byte-listener is detached, and any further data chunk leaves the state
untouched.  The default operation timeout is 90 000 ms. -/
theorem c6_timeout_settlement (amountCents : Nat) (tr : List SEvent)
    (h : (runSession amountCents tr).finished = false) :
    (step (runSession amountCents tr) SEvent.timerFire).resolved =
      [timeoutOutcome] ∧
    timeoutOutcome =
      ⟨false, strBytes "Timeout waiting for completion", none, none⟩ ∧
    (step (runSession amountCents tr) SEvent.timerFire).timerOn = false ∧
    (step (runSession amountCents tr) SEvent.timerFire).listenerOn = false ∧
    (∀ chunk, step (step (runSession amountCents tr) SEvent.timerFire)
      (SEvent.data chunk) = step (runSession amountCents tr) SEvent.timerFire) ∧
    defaultOperationTimeoutMs = 90000 := by
  have hp : Pending (runSession amountCents tr) := by
    cases run_good amountCents tr with
    | inl hp => exact hp
    | inr hs => rw [hs.1] at h; cases h
  have hstep : step (runSession amountCents tr) SEvent.timerFire =
      finish (runSession amountCents tr) timeoutOutcome := by
    show (if (runSession amountCents tr).timerOn then _ else _) = _
    rw [if_pos hp.2.2.1]
  have hfin := finish_pending (runSession amountCents tr) timeoutOutcome hp
  refine ⟨by rw [hstep]; exact hfin.2, rfl, ?_, ?_, ?_, rfl⟩
  · rw [hstep]; exact hfin.1.2.2.1
  · rw [hstep]; exact hfin.1.2.1
  · intro chunk
    rw [hstep]
    exact settled_step _ _ hfin.1

/-- Witness for C6: with no events delivered, the invocation is unsettled
and the timer expiry resolves the timeout failure. -/
theorem c6_timeout_settlement_witness :
    (runSession 1299 []).finished = false ∧
    (step (runSession 1299 []) SEvent.timerFire).resolved =
      [timeoutOutcome] :=
  ⟨by decide, (c6_timeout_settlement 1299 [] (by decide)).1⟩

/-- C7: the per-frame dispatch of `onData` answers every complete non-ACK
frame — Status Information, receipt line/text block, Completion, or any
unrecognized opcode — by writing exactly one ACK frame. -/
theorem c7_every_frame_acked (st : SessionState) (a : Apdu)
    (h : ¬(a.cla = 0x80 ∧ a.ins = 0x00)) :
    (handleApdu st a).1.sent = st.sent ++ [ackFrame] := by
  rw [handleApdu]
  split_ifs
  · rfl
  · rfl
  · rfl
  · show (finish { st with sent := st.sent ++ [ackFrame] }
      (completionOutcome a.data)).sent = _
    rw [finish]
    split_ifs
    · rfl
    · rfl
  · rfl

/-- Witness for C7: a Status Information frame is answered with exactly one
ACK. -/
theorem c7_every_frame_acked_witness :
    (handleApdu (initSession 1299) ⟨0x04, 0x0f, 0, []⟩).1.sent =
      (initSession 1299).sent ++ [ackFrame] :=
  c7_every_frame_acked (initSession 1299) ⟨0x04, 0x0f, 0, []⟩ (by decide)

/-- C9: an inbound ACK frame (`80 00`) hits no excluding branch of the
dispatch: it falls through to the default branch and is itself answered
with an outbound ACK, while no status, receipt or settlement processing
happens. -/
theorem c9_inbound_ack_acked (st : SessionState) :
    (handleApdu st ⟨0x80, 0x00, 0, []⟩).1.sent = st.sent ++ [ackFrame] ∧
    (handleApdu st ⟨0x80, 0x00, 0, []⟩).2 = StepRes.cont ∧
    (handleApdu st ⟨0x80, 0x00, 0, []⟩).1.statusTexts = st.statusTexts ∧
    (handleApdu st ⟨0x80, 0x00, 0, []⟩).1.receiptTexts = st.receiptTexts ∧
    (handleApdu st ⟨0x80, 0x00, 0, []⟩).1.resolved = st.resolved :=
  ⟨rfl, rfl, rfl, rfl, rfl⟩

/-- C5: Completion parsing — `"RRN=123 AUTH=456 APPROVED"` resolves success
with rrn `123` and auth code `456`; `"DECLINED"` resolves failure with the
payload as message, delivered as a resolved value through the session
machine (its only settlement channel), never thrown; and in general the
success flag is set exactly when the payload contains `APPROV`, `OK` or
`SUCCESS` case-insensitively. -/
theorem c5_completion_parsing :
    completionOutcome (strBytes "RRN=123 AUTH=456 APPROVED") =
      ⟨true, strBytes "RRN=123 AUTH=456 APPROVED",
        some (strBytes "123"), some (strBytes "456")⟩ ∧
    completionOutcome (strBytes "DECLINED") =
      ⟨false, strBytes "DECLINED", none, none⟩ ∧
    (∀ txt : List Nat, (completionOutcome txt).success = true ↔
      (ContainsCI txt (strBytes "APPROV") ∨ ContainsCI txt (strBytes "OK") ∨
        ContainsCI txt (strBytes "SUCCESS"))) ∧
    (runSession 1299
        [SEvent.data (buildApdu 0x06 0x0f (strBytes "DECLINED"))]).resolved =
      [⟨false, strBytes "DECLINED", none, none⟩] := by
  refine ⟨by decide, by decide, ?_, by decide⟩
  intro txt
  show approvedTest txt = true ↔ _
  rw [approvedTest]
  simp only [Bool.or_eq_true, hasSub_iff, ContainsCI]
  exact or_assoc

/-- Timeout configuration (`timeouts.connectMs` / `timeouts.idleMs`) passed
to `ZvtClient.connect`. -/
structure ConnTimeouts where
  connectMs : Option Nat
  idleMs : Option Nat
deriving DecidableEq

/-- State of `ZvtClient`'s connection management for one socket slot: the
`this.#socket` reference, the socket object's lifecycle, the attached
handlers (removed as a block by `removeAllListeners`), the connect-timeout
`setTimeout` and the socket-owned idle timer, and the asynchronous `close`
emission that Node.js schedules when a socket is destroyed (delivered only
after the synchronous code that called `destroy()` has returned). -/
structure ConnState where
  owned : Bool
  socketLive : Bool
  socketDestroyed : Bool
  handlersOn : Bool
  connectTimerPending : Bool
  idleTimerOn : Bool
  closeQueued : Bool
  connectedEvents : Nat
  disconnectedEvents : Nat
  timerFiredAfterTeardown : Bool
deriving DecidableEq

/-- Idle client: no socket ever created. -/
def initConn : ConnState :=
  { owned := false
    socketLive := false
    socketDestroyed := false
    handlersOn := false
    connectTimerPending := false
    idleTimerOn := false
    closeQueued := false
    connectedEvents := 0
    disconnectedEvents := 0
    timerFiredAfterTeardown := false }

/-- `socket.destroy()`: marks the socket destroyed, tears down the
socket-owned idle timer, and queues the asynchronous `close` emission; a
no-op on an already-destroyed socket. -/
def destroySocket (st : ConnState) : ConnState :=
  if st.socketDestroyed then st
  else
    { st with
      socketDestroyed := true
      idleTimerOn := false
      closeQueued := true }

/-- `ZvtClient.disconnect()`: if a socket is owned, synchronously
`destroy()` it, then `removeAllListeners()`, then clear `this.#socket`.
The `close` emission queued by `destroy()` is delivered later by the event
loop, after the handlers are already gone. -/
def disconnectConn (st : ConnState) : ConnState :=
  if st.owned then
    { destroySocket st with handlersOn := false, owned := false }
  else st

/-- `ZvtClient.connect(options)` on an idle slot (it first runs
`disconnect()`): creates the socket, arms the idle timer via
`socket.setTimeout` when configured, arms the connect-timeout `setTimeout`
when configured, and attaches the connect/data/timeout/error/close
handlers. -/
def connectConn (t : ConnTimeouts) (st : ConnState) : ConnState :=
  { disconnectConn st with
    owned := true
    socketLive := true
    socketDestroyed := false
    handlersOn := true
    connectTimerPending := t.connectMs.isSome
    idleTimerOn := t.idleMs.isSome
    closeQueued := false }

/-- Event-loop delivery of a queued `close` emission: the `close` handler —
which is what clears the connect-timeout and emits `disconnected` — runs
only if it is still attached. -/
def deliverCloseConn (st : ConnState) : ConnState :=
  if st.closeQueued then
    if st.handlersOn then
      { st with
        closeQueued := false
        connectTimerPending := false
        disconnectedEvents := st.disconnectedEvents + 1 }
    else { st with closeQueued := false }
  else st

/-- TCP handshake completion: the `once("connect")` handler clears the
connect-timeout and emits `connected`, if still attached. -/
def socketConnectedConn (st : ConnState) : ConnState :=
  if st.socketLive && !st.socketDestroyed && st.handlersOn then
    { st with
      connectTimerPending := false
      connectedEvents := st.connectedEvents + 1 }
  else st

/-- Socket-level error: the `error` handler clears the connect-timeout, if
still attached. -/
def socketErrorConn (st : ConnState) : ConnState :=
  if st.handlersOn then { st with connectTimerPending := false } else st

/-- Expiry of the connect-timeout `setTimeout`: an independent timer whose
callback runs regardless of the socket handlers and calls
`socket.destroy(new Error("Connect timeout"))` on its captured socket —
acting on an already-torn-down socket when it leaked past teardown. -/
def connectTimerFireConn (st : ConnState) : ConnState :=
  if st.connectTimerPending then
    if st.socketDestroyed then
      { st with
        connectTimerPending := false
        timerFiredAfterTeardown := true }
    else destroySocket { st with connectTimerPending := false }
  else st

/-- Calls and event-loop deliveries affecting the connection slot. -/
inductive ConnEvent
  | connectCall (t : ConnTimeouts)
  | disconnectCall
  | deliverClose
  | socketConnected
  | socketClosedByPeer
  | socketError
  | connectTimerFire
deriving DecidableEq

def connStep (st : ConnState) : ConnEvent → ConnState
  | ConnEvent.connectCall t => connectConn t st
  | ConnEvent.disconnectCall => disconnectConn st
  | ConnEvent.deliverClose => deliverCloseConn st
  | ConnEvent.socketConnected => socketConnectedConn st
  | ConnEvent.socketClosedByPeer => destroySocket st
  | ConnEvent.socketError => socketErrorConn st
  | ConnEvent.connectTimerFire => connectTimerFireConn st

def runConn (tr : List ConnEvent) : ConnState :=
  tr.foldl connStep initConn

/-- C2 (code-bug evaluation): after `connect` with a configured
connect-timeout followed by a synchronous `disconnect()`, the asynchronous
`close` emission finds its handler already removed, so the connect-timeout
is never cleared: the connection is fully torn down (socket destroyed,
reference released, handlers removed) yet the timer is still pending, and
when it later fires its callback acts on the torn-down socket.  By
contrast, the handshake, error, and peer-close settling paths — where the
handlers are still attached — do cancel the timer. -/
theorem c2_connect_timer_leak :
    (runConn [ConnEvent.connectCall ⟨some 5000, some 30000⟩,
      ConnEvent.disconnectCall, ConnEvent.deliverClose]).socketDestroyed
        = true ∧
    (runConn [ConnEvent.connectCall ⟨some 5000, some 30000⟩,
      ConnEvent.disconnectCall, ConnEvent.deliverClose]).owned = false ∧
    (runConn [ConnEvent.connectCall ⟨some 5000, some 30000⟩,
      ConnEvent.disconnectCall, ConnEvent.deliverClose]).handlersOn
        = false ∧
    (runConn [ConnEvent.connectCall ⟨some 5000, some 30000⟩,
      ConnEvent.disconnectCall,
      ConnEvent.deliverClose]).connectTimerPending = true ∧
    (runConn [ConnEvent.connectCall ⟨some 5000, some 30000⟩,
      ConnEvent.disconnectCall, ConnEvent.deliverClose,
      ConnEvent.connectTimerFire]).timerFiredAfterTeardown = true ∧
    (runConn [ConnEvent.connectCall ⟨some 5000, some 30000⟩,
      ConnEvent.socketConnected]).connectTimerPending = false ∧
    (runConn [ConnEvent.connectCall ⟨some 5000, some 30000⟩,
      ConnEvent.socketError]).connectTimerPending = false ∧
    (runConn [ConnEvent.connectCall ⟨some 5000, some 30000⟩,
      ConnEvent.socketClosedByPeer,
      ConnEvent.deliverClose]).connectTimerPending = false := by
  decide

/-- Routing decision of `handleClient` in the test double, in source
order: ACK skip, Diagnosis `06 70`, Authorization `06 01`, Abort `06 1E`,
then the default branch. -/
inductive MockAction
  | ackReceived
  | diagnosis
  | authorization
  | abort
  | unsupported
deriving DecidableEq

def mockRoute (a : Apdu) : MockAction :=
  if a.cla == 0x80 && a.ins == 0x00 then MockAction.ackReceived
  else if a.cla == 0x06 && a.ins == 0x70 then MockAction.diagnosis
  else if a.cla == 0x06 && a.ins == 0x01 then MockAction.authorization
  else if a.cla == 0x06 && a.ins == 0x1e then MockAction.abort
  else MockAction.unsupported

/-- `completion(ok)` of the test double. -/
def completionFrame (ok : Bool) : List Nat :=
  buildApdu 0x06 0x0f
    (strBytes (if ok then "COMPLETION:APPROVED" else "COMPLETION:DECLINED"))

/-- `statusInfo(text)` of the test double. -/
def statusInfo (text : List Nat) : List Nat :=
  buildApdu 0x04 0x0f text

/-- `respondAbort` of the test double: a single decline-style
Completion. -/
def respondAbortFrames : List (List Nat) :=
  [completionFrame false]

/-- `hexByte` of the test double: two lowercase hex digits (byte
values). -/
def hexDigitByte (d : Nat) : Nat :=
  if d < 10 then 48 + d else 87 + d

def hexByte (n : Nat) : List Nat :=
  [hexDigitByte (n / 16 % 16), hexDigitByte (n % 16)]

/-- `toOpcode` of the test double: `"<cla>-<ins>"`. -/
def toOpcode (cla ins : Nat) : List Nat :=
  hexByte cla ++ [45] ++ hexByte ins

/-- The default branch of `handleClient`: a status frame
`UNSUPPORTED: <opcode>` followed by an approve-style Completion. -/
def respondUnsupportedFrames (cla ins : Nat) : List (List Nat) :=
  [statusInfo (strBytes "UNSUPPORTED: " ++ toOpcode cla ins),
    completionFrame true]

/-- The frame `ZvtClient.abortPayment()` sends: `buildApdu(0x06, 0x02)`. -/
def clientAbortFrame : List Nat :=
  buildApdu 0x06 0x02 []

/-- C8 (code-bug evaluation): the client's `abortPayment` sends opcode
`06 02`, but the test double routes only `06 1E` to its Abort handler;
`06 02` falls through to the unrecognized-opcode default, which answers
with an `UNSUPPORTED: 06-02` status plus an approve-style Completion
instead of the decline-style Completion the Abort route produces. -/
theorem c8_abort_opcode_mismatch :
    clientAbortFrame = [0x06, 0x02, 0x00] ∧
    mockRoute ⟨0x06, 0x02, 0, []⟩ = MockAction.unsupported ∧
    mockRoute ⟨0x06, 0x02, 0, []⟩ ≠ MockAction.abort ∧
    mockRoute ⟨0x06, 0x1e, 0, []⟩ = MockAction.abort ∧
    respondAbortFrames = [completionFrame false] ∧
    completionFrame false =
      buildApdu 0x06 0x0f (strBytes "COMPLETION:DECLINED") ∧
    respondUnsupportedFrames 0x06 0x02 =
      [statusInfo (strBytes "UNSUPPORTED: 06-02"), completionFrame true] := by
  decide
